import Mathlib

/-!
Shallow embedding of `loop.py` (spatially correlated random field simulator).

Scalars are modelled as `ℚ`.  The external collaborators that `loop.py`
imports — `geodetic_distance` from openquake, the correlation-model call
`CM._get_correlation_model`, `np.linalg.pinv`, `np.sqrt` and `np.exp` — are
bundled as opaque-to-us function parameters in the `Ext` structure; every
definition below that corresponds to a function of `loop.py` takes an `Ext`
and is otherwise a direct translation of the Python source.  Fallible
behaviour (out-of-range indexing, shape mismatches in numpy operations,
float overflow on division by zero) is modelled with `Option`.
-/

namespace Loop

/-- Matrices are lists of rows, as numpy 2-d arrays. -/
abbrev Mat := List (List ℚ)

/-- numpy-style indexing: a negative index within `-len .. -1` wraps to the
end of the list, anything else out of range is an error. -/
def npGet {α : Type} (l : List α) (z : ℤ) : Option α :=
  if 0 ≤ z then l.get? z.toNat
  else if (-z).toNat ≤ l.length then l.get? (l.length - (-z).toNat) else none

/-- `range(a, b)` over the integers (empty when `b ≤ a`), as Python `range`. -/
def intRange (a b : ℤ) : List ℤ :=
  (List.range (b - a).toNat).map (fun (t : ℕ) => a + (t : ℤ))

/-- Effectful map over `Option` (what `numpy` vectorised access does:
the first failing element aborts).  `List.mapM` specialised to `Option`,
written recursively for ease of reasoning. -/
def optMapM {α β : Type} (f : α → Option β) : List α → Option (List β)
  | [] => some []
  | a :: t =>
    Option.bind (f a) (fun b => Option.bind (optMapM f t) (fun r => some (b :: r)))

/-- Dot product of two vectors; numpy matrix multiplication fails on a
shape mismatch, hence the length check. -/
def dotQ (v w : List ℚ) : Option ℚ :=
  if v.length = w.length then some ((List.zipWith (fun a b => a * b) v w).sum)
  else none

/-- Row vector times square-ish matrix, `(1×n)·(n×m) → (1×m)`:
entry `q` of the result is `Σ_p v[p]·m[p][q]`.  Fails when the number of
rows of `m` differs from the length of `v` or `m` is ragged. -/
def rowTimesMat (v : List ℚ) (m : Mat) : Option (List ℚ) :=
  let cols := (m.headD []).length
  if m.length = v.length ∧ m.all (fun row => row.length = cols) then
    some ((List.range cols).map (fun q =>
      ((List.zipWith (fun a row => a * row.getD q 0) v m).sum)))
  else none

/-- `np.concatenate(axis=1)`: horizontal concatenation, row counts must match. -/
def matHcat (A B : Mat) : Option Mat :=
  if A.length = B.length then some (List.zipWith (fun r s => r ++ s) A B) else none

/-- `np.concatenate(axis=0)`: vertical concatenation, column counts must match. -/
def matVcat (A B : Mat) : Option Mat :=
  let AB := A ++ B
  if AB.all (fun row => row.length = (AB.headD []).length) then some AB else none

/-- The external collaborators of `loop.py` (see module docstring). -/
structure Ext where
  /-- `geodetic_distance lon1 lat1 lon2 lat2` (openquake). -/
  gd : ℚ → ℚ → ℚ → ℚ → ℚ
  /-- `CM._get_correlation_model(dist_mat, from_string(voi))`: the
  correlation model together with the fixed variable of interest. -/
  corr : Mat → Mat
  /-- `np.linalg.pinv`. -/
  pinv : Mat → Mat
  /-- `np.sqrt`. -/
  sqrt : ℚ → ℚ
  /-- `np.exp`. -/
  exp : ℚ → ℚ

/-- The `var` dictionary handed to `main`, plus the grid/station coordinate
arrays held by the two site collections. -/
structure Var where
  M : ℕ
  N : ℕ
  K : ℕ
  lonsSM : List ℚ
  latsSM : List ℚ
  lonsSta : List ℚ
  latsSta : List ℚ
  uncertaintydata : Mat
  data : Mat
deriving Repr, DecidableEq

/-- Output of `set_up_grid_dist`. -/
structure LD where
  l : List ℚ
  d : List ℚ
deriving Repr, DecidableEq

/-- `set_up_grid_dist(M, N, site_collection_SM)`: per-row vertical spacings
`l` (length `M-1`) and horizontal spacings `d` (length `M`).  The numpy
slice assignments `l[:] = …`, `d[:] = …` fail unless the right-hand sides
have exactly the lengths `M-1` and `M`; `np.zeros([M-1])` fails for `M = 0`
and `range(…, …, N)` fails for `N = 0`. -/
def set_up_grid_dist (ext : Ext) (M N : ℕ) (lons lats : List ℚ) : Option LD := do
  if M = 0 ∨ N = 0 then none else
  let vertPairs := (List.range (M - 1)).map (fun (k : ℕ) => ((N + N * k : ℤ), ((N : ℤ) * k : ℤ)))
  let l ← optMapM (fun p => do
    let lo1 ← npGet lons p.1
    let la1 ← npGet lats p.1
    let lo2 ← npGet lons p.2
    let la2 ← npGet lats p.2
    pure (ext.gd lo1 la1 lo2 la2)) vertPairs
  let horPairs := (List.range M).map (fun (k : ℕ) => (((N : ℤ) * k : ℤ), (1 + N * k : ℤ)))
  let d ← optMapM (fun p => do
    let lo1 ← npGet lons p.1
    let la1 ← npGet lats p.1
    let lo2 ← npGet lons p.2
    let la2 ← npGet lats p.2
    pure (ext.gd lo1 la1 lo2 la2)) horPairs
  pure ⟨l, d⟩

/-- Output of `calc_vert_hor`. -/
structure VHVA where
  vert : ℤ
  hor : ℤ
  added_vert : ℤ
deriving Repr, DecidableEq

/-- `calc_vert_hor(i, r, l, d)`.  `hor = int(np.floor(r/d[i]))`; the `l[1]`
lookup happens on every call (also for `i = 0`).  Division of a float by
zero produces `inf`/`nan`, on which `int(np.floor(…))` raises, modelled by
the two zero tests. -/
def calc_vert_hor (i : ℕ) (r : ℚ) (l d : List ℚ) : Option VHVA := do
  let di ← d.get? i
  if di = 0 then none else
  let hor : ℤ := Rat.floor (r / di)
  let l1 ← l.get? 1
  if (i : ℚ) * l1 ≤ r then
    pure ⟨(i : ℤ) + 1, hor, 0⟩
  else
    if l1 = 0 then none else
    let vert : ℤ := Rat.floor (r / l1) + 1
    pure ⟨vert, hor, (i : ℤ) - vert + 1⟩

/-- Output of `calc_full_dist`. -/
structure FD where
  grid_indices : List ℤ
  distance_matrix : Mat
deriving Repr, DecidableEq

/-- The index list built by `calc_full_dist`: rows `row-vert+1 .. row`, the
current row contributing columns `0 .. hor`, earlier rows `0 .. 2·hor`. -/
def fullGridIndices (row : ℕ) (vert hor : ℤ) (N : ℕ) : List ℤ :=
  (intRange ((row : ℤ) - vert + 1) ((row : ℤ) + 1)).flatMap (fun k =>
    if k = (row : ℤ) then
      (intRange 0 (hor + 1)).map (fun j => j + (N : ℤ) * k)
    else
      (intRange 0 (2 * hor + 1)).map (fun j => j + (N : ℤ) * k))

/-- The symmetric distance matrix of `calc_full_dist`: the upper triangle
(including the diagonal) is filled with `gd`, then the matrix is added to
its transpose. -/
def buildSymMat (gd : ℚ → ℚ → ℚ → ℚ → ℚ) (pts : List (ℚ × ℚ)) : Mat :=
  let up : ℕ → ℕ → ℚ := fun p q =>
    if p ≤ q then
      gd (pts.getD p (0, 0)).1 (pts.getD p (0, 0)).2
         (pts.getD q (0, 0)).1 (pts.getD q (0, 0)).2
    else 0
  (List.range pts.length).map (fun p =>
    (List.range pts.length).map (fun q => up p q + up q p))

/-- `calc_full_dist(row, vert, hor, N, site_collection_SM)`. -/
def calc_full_dist (ext : Ext) (row : ℕ) (vert hor : ℤ) (N : ℕ)
    (lons lats : List ℚ) : Option FD := do
  let gi := fullGridIndices row vert hor N
  let pts ← optMapM (fun t => do
    let lo ← npGet lons t
    let la ← npGet lats t
    pure (lo, la)) gi
  pure ⟨gi, buildSymMat ext.gd pts⟩

/-- Output of `reduce_distance`. -/
structure RD where
  dist_mat : Mat
  inc_indices : List ℕ
  inc_ind : List ℤ
  num_indices : ℤ
deriving Repr, DecidableEq

/-- Gather of rows-then-columns used for
`dist_mat = distance_matrix[:,inc_indices]; dist_mat = dist_mat[inc_indices,:]`. -/
def matGather (m : Mat) (ps : List ℕ) : Mat :=
  ps.map (fun p => ps.map (fun q => (m.getD p []).getD q 0))

/-- The index list built by the three branches of `reduce_distance`
(`[None]*…` preallocation followed by `del inc_ind[n:]` amounts to plain
list building; the Python entries are singleton lists `[idx]`, flattened
here to the index itself as `np.array(inc_ind).T[0]` later does). -/
def reducedInd (vert added_vert : ℤ) (N : ℕ)
    (loC hiC loP hiP : ℤ) : List ℤ :=
  (intRange 0 vert).flatMap (fun k =>
    if k = vert - 1 then
      (intRange loC hiC).map (fun eta => eta + (N : ℤ) * k + (N : ℤ) * added_vert)
    else
      (intRange loP hiP).map (fun eta => eta + (N : ℤ) * k + (N : ℤ) * added_vert))

/-- `reduce_distance(j, vert, hor, added_vert, N, distance_matrix, grid_indices)`.
`inc_indices` is `np.where(cond(np.mod(range(len(grid_indices)), B)))`,
kept as the list of positions satisfying the condition. -/
def reduce_distance (j : ℕ) (vert hor added_vert : ℤ) (N : ℕ)
    (distance_matrix : Mat) (grid_indices : List ℤ) : RD :=
  let L := grid_indices.length
  if (j : ℤ) < hor then
    -- on left end of grid
    let num_indices : ℤ := if vert = 1 then (j : ℤ) + 1 else (j : ℤ) + hor + 1
    let inc_indices :=
      if vert = 1 then
        (List.range L).filter (fun (p : ℕ) => (p : ℤ) % (hor + 1) ≥ hor + 1 - num_indices)
      else
        (List.range L).filter (fun (p : ℕ) => (p : ℤ) % (2 * hor + 1) ≥ 2 * hor + 1 - num_indices)
    let inc_ind := reducedInd vert added_vert N 0 ((j : ℤ) + 1) 0 ((j : ℤ) + hor + 1)
    ⟨matGather distance_matrix inc_indices, inc_indices, inc_ind, num_indices⟩
  else if (j : ℤ) > (N : ℤ) - hor - 1 then
    -- on right end of grid
    let num_indices : ℤ := if vert = 1 then 1 + hor else (N : ℤ) - j + hor
    let inc_indices :=
      if vert = 1 then
        (List.range L).filter (fun (p : ℕ) => (p : ℤ) % (hor + 1) ≥ hor + 1 - num_indices)
      else
        (List.range L).filter (fun (p : ℕ) => (p : ℤ) % (2 * hor + 1) ≤ num_indices - 1)
    let inc_ind := reducedInd vert added_vert N ((j : ℤ) - hor) ((j : ℤ) + 1)
      ((j : ℤ) - hor) (N : ℤ)
    ⟨matGather distance_matrix inc_indices, inc_indices, inc_ind, num_indices⟩
  else
    -- in the middle of the grid, all points included
    let num_indices : ℤ := if vert = 1 then 1 + hor else 2 * hor + 1
    let inc_indices :=
      if vert = 1 then
        (List.range L).filter (fun (p : ℕ) => (p : ℤ) % (hor + 1) ≥ hor + 1 - num_indices)
      else
        (List.range L).filter (fun (p : ℕ) => (p : ℤ) % (2 * hor + 1) ≥ 2 * hor + 1 - num_indices)
    let inc_ind := reducedInd vert added_vert N ((j : ℤ) - hor) ((j : ℤ) + 1)
      ((j : ℤ) - hor) ((j : ℤ) + hor + 1)
    ⟨matGather distance_matrix inc_indices, inc_indices, inc_ind, num_indices⟩

/-- Output of `inc_stations`. -/
structure IS where
  dist_mat : Mat
  x : List ℚ
  inc_sta_indices : List ℕ
deriving Repr, DecidableEq

/-- `inc_stations(j, i, N, K, r, …, dist_mat, X, inc_ind)`. -/
def inc_stations (ext : Ext) (j i N K : ℕ) (r : ℚ)
    (lonsSM latsSM lonsSta latsSta : List ℚ)
    (dist_mat : Mat) (X : List ℚ) (inc_ind : List ℤ) : Option IS := do
  let lo ← npGet lonsSM ((j : ℤ) + (i : ℤ) * (N : ℤ))
  let la ← npGet latsSM ((j : ℤ) + (i : ℤ) * (N : ℤ))
  -- distances from the grid point to the first K stations
  let staPairs := List.zip (lonsSta.take K) (latsSta.take K)
  let dist_sta_sit := staPairs.map (fun s => ext.gd lo la s.1 s.2)
  let inc_sta_indices := (List.range dist_sta_sit.length).filter
    (fun p => dist_sta_sit.getD p 0 < r)
  if inc_sta_indices ≠ [] then
    let staPts ← optMapM (fun (s : ℕ) => do
      let slo ← npGet lonsSta (s : ℤ)
      let sla ← npGet latsSta (s : ℤ)
      pure (slo, sla)) inc_sta_indices
    let gridPts ← optMapM (fun t => do
      let glo ← npGet lonsSM t
      let gla ← npGet latsSM t
      pure (glo, gla)) inc_ind
    let sta_to_grd : Mat := staPts.map (fun sp =>
      gridPts.map (fun gp => ext.gd sp.1 sp.2 gp.1 gp.2))
    -- upper-triangular fill (strictly above the diagonal) plus transpose
    let n := staPts.length
    let upSta : ℕ → ℕ → ℚ := fun p q =>
      if p < q then
        ext.gd (staPts.getD p (0, 0)).1 (staPts.getD p (0, 0)).2
               (staPts.getD q (0, 0)).1 (staPts.getD q (0, 0)).2
      else 0
    let sta_to_sta : Mat := (List.range n).map (fun p =>
      (List.range n).map (fun q => upSta p q + upSta q p))
    let station_distance_matrix ← matHcat sta_to_sta sta_to_grd
    let dm1 ← matVcat (station_distance_matrix.map (fun row => row.drop n)) dist_mat
    let dm2 ← matHcat station_distance_matrix.transpose dm1
    let xs ← optMapM (fun t => npGet X t) inc_ind
    pure ⟨dm2, (List.replicate n (0 : ℚ) ++ xs).dropLast, inc_sta_indices⟩
  else
    let xs ← optMapM (fun t => npGet X t) inc_ind
    pure ⟨dist_mat, xs.dropLast, inc_sta_indices⟩

/-- Output of `calculate_corr`. -/
structure CorrOut where
  Sig12 : List ℚ
  Sig11inv : Mat
  R : ℚ
deriving Repr, DecidableEq

/-- `Sig22 - Sig12.T * Sig11inv * Sig12`, the raw Schur complement
computed inside `calculate_corr` (left-associated as numpy does). -/
def schurOf (ext : Ext) (dist_mat : Mat) : Option ℚ := do
  let cov := ext.corr dist_mat
  let Sig12 ← optMapM (fun (row : List ℚ) => row.getLast?) cov.dropLast
  let lastRow ← cov.getLast?
  let Sig22 ← lastRow.getLast?
  let Sig11inv := ext.pinv (cov.dropLast.map (fun row => row.dropLast))
  let w ← rowTimesMat Sig12 Sig11inv
  let t ← dotQ w Sig12
  pure (Sig22 - t)

/-- `calculate_corr(dist_mat, voi, CM)`: partitions the covariance matrix,
pseudo-inverts `Sig11`, and returns `Sig12`, `Sig11inv` and
`R = np.sqrt(Sig22 - Sig12.T*Sig11inv*Sig12)`. -/
def calculate_corr (ext : Ext) (dist_mat : Mat) : Option CorrOut := do
  let cov := ext.corr dist_mat
  let Sig12 ← optMapM (fun (row : List ℚ) => row.getLast?) cov.dropLast
  let lastRow ← cov.getLast?
  let Sig22 ← lastRow.getLast?
  let Sig11inv := ext.pinv (cov.dropLast.map (fun row => row.dropLast))
  let w ← rowTimesMat Sig12 Sig11inv
  let t ← dotQ w Sig12
  pure ⟨Sig12, Sig11inv, ext.sqrt (Sig22 - t)⟩

/-- The mutable accumulation arrays of `main`, all indexed by the linear
cell id `num = i*N + j`.  `grid_arr` and `mu_arr` start as `[None]*(M*N)`,
modelled by empty lists, the others as `np.zeros`. -/
structure SimState where
  X : List ℚ
  grid_arr : List (List ℤ)
  mu_arr : List (List ℚ)
  sigma_arr : List ℚ
  rand_arr : List ℚ
deriving Repr, DecidableEq

/-- Initial accumulation state of `main`. -/
def initState (MN : ℕ) : SimState :=
  ⟨List.replicate MN 0, List.replicate MN [], List.replicate MN [],
   List.replicate MN 0, List.replicate MN 0⟩

/-- `mu + rand_num * R` where `mu = Sig12.T*Sig11inv*x` — the value
assignment of `main`, shared by the base-reuse and the fresh-solve paths. -/
def epsValue (c : CorrOut) (x : List ℚ) (rand_num : ℚ) : Option ℚ := do
  let w ← rowTimesMat c.Sig12 c.Sig11inv
  let mu ← dotQ w x
  pure (mu + rand_num * c.R)

/-- The canonical full-window test of `main`:
`(vert == 1 and num_indices == hor+1) or (vert != 1 and num_indices == 2*hor+1)`. -/
def isFullShape (vert hor num_indices : ℤ) : Prop :=
  (vert = 1 ∧ num_indices = hor + 1) ∨ (vert ≠ 1 ∧ num_indices = 2 * hor + 1)

instance (vert hor num_indices : ℤ) : Decidable (isFullShape vert hor num_indices) := by
  unfold isFullShape; infer_instance

/-- The `reduce_distance` call of the inner loop of `main`. -/
def cellReduce (v : Var) (vhva : VHVA) (dist : FD) (j : ℕ) : RD :=
  reduce_distance j vhva.vert vhva.hor vhva.added_vert v.N
    dist.distance_matrix dist.grid_indices

/-- The `inc_stations` call of the inner loop of `main`. -/
def cellStations (ext : Ext) (v : Var) (r : ℚ) (i j : ℕ) (X : List ℚ)
    (dc : RD) : Option IS :=
  inc_stations ext j i v.N v.K r v.lonsSM v.latsSM v.lonsSta v.latsSta
    dc.dist_mat X dc.inc_ind

/-- The body of the inner (per-cell) loop of `main`.  The row-scoped pair
`first_time_per_row`/`base` is carried as an `Option CorrOut` (the flag is
cleared exactly when `base` is assigned). -/
def cellStep (ext : Ext) (v : Var) (r : ℚ) (rand : List ℚ) (vhva : VHVA)
    (dist : FD) (i j : ℕ) (st : SimState) (base : Option CorrOut) :
    Option (SimState × Option CorrOut) := do
  let num := i * v.N + j
  let dist_calc := cellReduce v vhva dist j
  let out ← cellStations ext v r i j st.X dist_calc
  if dist_calc.inc_indices.length = 1 then
    -- no conditioning points, correlation value is random
    let rv ← rand.get? num
    pure (⟨st.X.set num rv, st.grid_arr.set num [], st.mu_arr.set num [],
           st.sigma_arr.set num 1, st.rand_arr.set num rv⟩, base)
  else
    if isFullShape vhva.vert vhva.hor dist_calc.num_indices ∧ out.inc_sta_indices = [] then
      let b ← match base with
              | none => calculate_corr ext out.dist_mat
              | some b => pure b
      let rv ← rand.get? num
      let xv ← epsValue b out.x rv
      let w ← rowTimesMat b.Sig12 b.Sig11inv
      pure (⟨st.X.set num xv, st.grid_arr.set num dist_calc.inc_ind.dropLast,
             st.mu_arr.set num w, st.sigma_arr.set num b.R, st.rand_arr.set num rv⟩,
            some b)
    else
      let other ← calculate_corr ext out.dist_mat
      let rv ← rand.get? num
      let xv ← epsValue other out.x rv
      let w ← rowTimesMat other.Sig12 other.Sig11inv
      pure (⟨st.X.set num xv, st.grid_arr.set num dist_calc.inc_ind.dropLast,
             st.mu_arr.set num w, st.sigma_arr.set num other.R, st.rand_arr.set num rv⟩,
            base)

/-- The body of the outer (per-row) loop of `main`. -/
def rowStep (ext : Ext) (v : Var) (r : ℚ) (rand : List ℚ) (ld : LD)
    (i : ℕ) (st : SimState) : Option SimState := do
  let vhva ← calc_vert_hor i r ld.l ld.d
  let dist ← calc_full_dist ext i vhva.vert vhva.hor v.N v.lonsSM v.latsSM
  let res ← (List.range v.N).foldlM
    (fun (acc : SimState × Option CorrOut) j => cellStep ext v r rand vhva dist i j acc.1 acc.2)
    (st, none)
  pure res.1

/-- The traversal of `main` up to (excluding) the final reshape/perturbation:
the accumulated `X`, `grid_arr`, `mu_arr`, `sigma_arr` and `rand_arr`. -/
def mainState (ext : Ext) (v : Var) (r : ℚ) (rand : List ℚ) : Option SimState := do
  let ld ← set_up_grid_dist ext v.M v.N v.lonsSM v.latsSM
  (List.range v.M).foldlM (fun st i => rowStep ext v r rand ld i st)
    (initState (v.M * v.N))

/-- `np.reshape(X, [M, N])`. -/
def reshapeRows : ℕ → ℕ → List ℚ → Mat
  | 0, _, _ => []
  | m + 1, N, l => l.take N :: reshapeRows m N (l.drop N)

/-- `np.multiply` (elementwise, shapes must agree). -/
def matElemMul (A B : Mat) : Option Mat :=
  if A.length = B.length ∧ (List.zip A B).all (fun p => p.1.length = p.2.length) then
    some ((List.zip A B).map (fun p => List.zipWith (fun a b => a * b) p.1 p.2))
  else none

/-- What `main` returns: the epsilon grid `cor`, the input `data`, the
perturbed grid `data_new = data * exp(cor * uncertaintydata)` and the
metadata arrays (`rand_arr` is computed but not returned by the Python). -/
structure MainOut where
  cor : Mat
  data : Mat
  data_new : Mat
  grid_arr : List (List ℤ)
  mu_arr : List (List ℚ)
  sigma_arr : List ℚ
deriving Repr, DecidableEq

/-- `main(var, r, voi, rand, cor_model, vs_corr)`. -/
def main (ext : Ext) (v : Var) (r : ℚ) (rand : List ℚ) : Option MainOut := do
  let st ← mainState ext v r rand
  let COR := reshapeRows v.M v.N st.X
  let Xu ← matElemMul COR v.uncertaintydata
  let data_new ← matElemMul v.data (Xu.map (fun row => row.map ext.exp))
  pure ⟨COR, v.data, data_new, st.grid_arr, st.mu_arr, st.sigma_arr⟩

/-- The resampling procedure the specification describes: a second
realization reuses the stored conditioning indices `grid_arr`, weight
vectors `mu_arr` and standard deviations `sigma_arr`, and recomputes, in
traversal order, `X2[num] = mu_arr[num] · X2[grid_arr[num]] +
rand2[num] · sigma_arr[num]`. -/
def resample (MN : ℕ) (grid_arr : List (List ℤ)) (mu_arr : List (List ℚ))
    (sigma_arr : List ℚ) (rand2 : List ℚ) : Option (List ℚ) :=
  (List.range MN).foldlM (fun (X2 : List ℚ) num => do
    let vals ← optMapM (fun t => npGet X2 t) (grid_arr.getD num [])
    let mu ← dotQ (mu_arr.getD num []) vals
    let r2 ← rand2.get? num
    pure (X2.set num (mu + r2 * sigma_arr.getD num 0)))
    (List.replicate MN 0)

/-! ### Generic list lemmas used by the structural proofs -/

theorem optMapM_length {α β : Type} {f : α → Option β} :
    ∀ {l : List α} {l2 : List β}, optMapM f l = some l2 → l2.length = l.length := by
  intro l
  induction l with
  | nil => intro l2 h; simp only [optMapM, Option.some_inj] at h; simp [← h]
  | cons a t ih =>
    intro l2 h
    simp only [optMapM, Option.bind_eq_some, Option.pure_def, Option.some_inj] at h
    rcases h with ⟨b, hb, r, hr, rfl⟩
    simp [ih hr]

theorem optMapM_eq_map {α β : Type} {f : α → Option β} {g : α → β} :
    ∀ {l : List α}, (∀ a ∈ l, f a = some (g a)) → optMapM f l = some (l.map g) := by
  intro l
  induction l with
  | nil => intro _; simp [optMapM]
  | cons a t ih =>
    intro h
    have ha := h a (by simp)
    have ht := ih (fun b hb => h b (by simp [hb]))
    simp [optMapM, ha, ht]

theorem map_getD_range {α : Type} (l : List α) (d : α) :
    (List.range l.length).map (fun p => l.getD p d) = l := by
  apply List.ext_getElem
  · simp
  · intro n h1 h2
    simp [List.getD_eq_getElem?_getD, List.getElem?_eq_getElem h2]

theorem intRange_length (a b : ℤ) : (intRange a b).length = (b - a).toNat := by
  simp [intRange]

theorem mem_intRange {a b e : ℤ} : e ∈ intRange a b ↔ a ≤ e ∧ e < b := by
  simp only [intRange, List.mem_map, List.mem_range]
  constructor
  · rintro ⟨t, ht, rfl⟩
    omega
  · rintro ⟨h1, h2⟩
    exact ⟨(e - a).toNat, by omega, by omega⟩

theorem intRange_map_add (a b δ : ℤ) :
    (intRange a b).map (fun e => e + δ) = intRange (a + δ) (b + δ) := by
  simp only [intRange, List.map_map]
  have : b + δ - (a + δ) = b - a := by ring
  rw [this]
  apply List.map_congr_left
  intro t _
  simp only [Function.comp_apply]
  ring

theorem intRange_succ_right {a b : ℤ} (h : a < b) :
    intRange a b = intRange a (b - 1) ++ [b - 1] := by
  have h1 : (b - a).toNat = (b - 1 - a).toNat + 1 := by omega
  simp only [intRange, h1, List.range_succ, List.map_append, List.map_cons, List.map_nil]
  congr 1
  simp only [List.cons.injEq, and_true]
  omega

theorem intRange_dropLast (a b : ℤ) :
    (intRange a b).dropLast = intRange a (b - 1) := by
  by_cases h : a < b
  · rw [intRange_succ_right h, List.dropLast_concat]
  · have h1 : (b - a).toNat = 0 := by omega
    have h2 : (b - 1 - a).toNat = 0 := by omega
    simp [intRange, h1, h2]

theorem intRange_getD (a b : ℤ) (t : ℕ) (d : ℤ) (ht : (t : ℤ) < b - a) :
    (intRange a b).getD t d = a + t := by
  have hlen : t < (intRange a b).length := by
    rw [intRange_length]; omega
  rw [List.getD_eq_getElem _ _ hlen]
  simp [intRange]

/-- `Rat.floor` (used in the embedding because it evaluates) is the
mathematical floor. -/
theorem ratFloor_eq_floor (q : ℚ) : Rat.floor q = ⌊q⌋ := by
  rw [Rat.floor_def', Rat.floor_def]

/-! ### Concrete instantiations used by witnesses and counterexamples -/

/-- Identity covariance matrix of a given size. -/
def idMat (n : ℕ) : Mat :=
  (List.range n).map (fun i => (List.range n).map (fun j => if i = j then (1 : ℚ) else 0))

/-- A concrete distance function with the properties of a geodetic distance
on a regular grid: symmetric, zero on identical points, invariant under a
common longitude shift. -/
def taxicab : ℚ → ℚ → ℚ → ℚ → ℚ := fun lo1 la1 lo2 la2 => |lo1 - lo2| + |la1 - la2|

/-- Externals for runs where every covariance matrix is the identity (so
every conditional solve is trivial and `pinv`/`sqrt` are exercised on
identity matrices and `1` only). -/
def extId : Ext := ⟨taxicab, fun m => idMat m.length, fun m => m, fun q => q, fun q => q⟩

/-- A regular 3×3 unit-spaced grid (`lons = column`, `lats = row`), no stations. -/
def v33 : Var := ⟨3, 3, 0, [0, 1, 2, 0, 1, 2, 0, 1, 2], [0, 0, 0, 1, 1, 1, 2, 2, 2],
  [], [], (List.range 3).map (fun _ => [1, 1, 1]), (List.range 3).map (fun _ => [1, 1, 1])⟩

/-- A length-9 random vector. -/
def rand9 : List ℚ := [1/10, 2/10, 3/10, 4/10, 5/10, 6/10, 7/10, 8/10, 9/10]

/-- The 3×3 grid with one station at `(0, -1)`: within radius `3/2` of the
grid cell `(0,0)` only. -/
def v33sta0 : Var := ⟨3, 3, 1, [0, 1, 2, 0, 1, 2, 0, 1, 2], [0, 0, 0, 1, 1, 1, 2, 2, 2],
  [0], [-1], (List.range 3).map (fun _ => [1, 1, 1]), (List.range 3).map (fun _ => [1, 1, 1])⟩

/-- The 3×3 grid with one station at `(1, -1/2)`: within radius `3/2` of the
grid cell `(0,1)` only. -/
def v33sta1 : Var := ⟨3, 3, 1, [0, 1, 2, 0, 1, 2, 0, 1, 2], [0, 0, 0, 1, 1, 1, 2, 2, 2],
  [1], [-1/2], (List.range 3).map (fun _ => [1, 1, 1]), (List.range 3).map (fun _ => [1, 1, 1])⟩

/-- The station-augmented distance matrix arising at cell `(0,1)` of
`v33sta1` (order: station, grid cell 0, target cell 1). -/
def staMat : Mat := [[0, 3/2, 1/2], [3/2, 0, 1], [1/2, 1, 0]]

/-- A positive-semidefinite covariance with distinct station and grid
weights: `Sig11 = I`, `Sig12 = (1/2, 1/4)`, `Sig22 = 1`. -/
def staCov : Mat := [[1, 0, 1/2], [0, 1, 1/4], [1/2, 1/4, 1]]

/-- Externals whose correlation model returns `staCov` on the one
station-augmented matrix of the `v33sta1` run and the identity elsewhere. -/
def extSta : Ext := ⟨taxicab, fun m => if m = staMat then staCov else idMat m.length,
  fun m => m, fun q => q, fun q => q⟩

/-- A second random vector, for resampling. -/
def rand9b : List ℚ := [1, 1, 1, 1, 1, 1, 1, 1, 1]

/-- A 3-row, 2-column grid whose first two rows are unit-spaced but whose
last row is spaced 100 apart, with radius 2: rows 0 and 1 get `hor = 2 ≥ N`,
the configuration on which the window spills across row boundaries. -/
def v32 : Var := ⟨3, 2, 0, [0, 1, 0, 1, 0, 100], [0, 0, 2, 2, 4, 4], [], [],
  [[1, 1], [1, 1], [1, 1]], [[1, 1], [1, 1], [1, 1]]⟩

/-- A length-6 random vector. -/
def rand6 : List ℚ := [1/10, 2/10, 3/10, 4/10, 5/10, 6/10]

/-- Externals whose correlation model always returns `[[1,2],[2,1]]`, making
the raw Schur complement `1 - 2·1·2 = -3 < 0` (with `pinv = id` on the 1×1
block `[[1]]`). -/
def extC5 : Ext := ⟨taxicab, fun _ => [[1, 2], [2, 1]], fun m => m, fun q => q, fun q => q⟩

/-! ### C10 -/

/-- **C10** (confirmed): `calc_vert_hor` evaluates `l[1]` unconditionally, so
for `M ≤ 2` the spacing vector `l` produced by `set_up_grid_dist` has fewer
than 2 entries and every cell's window computation — for every row `i` and
radius `r` — hits the out-of-range error branch (`none`). -/
theorem C10_min_grid_height (ext : Ext) (M N : ℕ) (lons lats : List ℚ) (hM : M ≤ 2) :
    (∀ ld, set_up_grid_dist ext M N lons lats = some ld → ld.l.length < 2) ∧
    (∀ (i : ℕ) (r : ℚ),
      (do
        let ld ← set_up_grid_dist ext M N lons lats
        calc_vert_hor i r ld.l ld.d) = none) := by
  have hfst : ∀ ld, set_up_grid_dist ext M N lons lats = some ld → ld.l.length < 2 := by
    intro ld h
    rw [set_up_grid_dist] at h
    by_cases h0 : M = 0 ∨ N = 0
    · rw [if_pos h0] at h; simp at h
    · rw [if_neg h0] at h
      simp only [Option.pure_def, Option.bind_eq_bind, Option.bind_eq_some,
        Option.some_inj] at h
      rcases h with ⟨l, hl, d, hd, rfl⟩
      have := optMapM_length hl
      simp only [List.length_map, List.length_range] at this
      simp only [this]
      omega
  refine ⟨hfst, ?_⟩
  intro i r
  cases hset : set_up_grid_dist ext M N lons lats with
  | none => simp [hset]
  | some ld =>
    have hlen := hfst ld hset
    simp only [hset, Option.bind_eq_bind, Option.some_bind]
    rw [calc_vert_hor]
    have h1 : ld.l.get? 1 = none := by
      rw [List.get?_eq_none]
      omega
    cases hdi : ld.d.get? i with
    | none => simp
    | some di =>
      simp only [Option.bind_eq_bind, Option.some_bind]
      by_cases hz : di = 0
      · rw [if_pos hz]
      · rw [if_neg hz]
        simp only [List.get?_eq_getElem?] at h1
        simp [h1]

/-- Witness for C10: a concrete 2×2 grid on which `set_up_grid_dist`
succeeds (so the failure really comes from the `l[1]` lookup) and the
composite window computation errors for row 0. -/
theorem C10_min_grid_height_witness :
    (2 ≤ 2) ∧
    (set_up_grid_dist extId 2 2 [0, 1, 0, 1] [0, 0, 1, 1]).isSome = true ∧
    (do
      let ld ← set_up_grid_dist extId 2 2 [0, 1, 0, 1] [0, 0, 1, 1]
      calc_vert_hor 0 1 ld.l ld.d) = none :=
  ⟨by decide, by decide,
    (C10_min_grid_height extId 2 2 [0, 1, 0, 1] [0, 0, 1, 1] (by decide)).2 0 1⟩

/-! ### C8 -/

/-- The window sizing as the specification words it: `hor = ⌊r/d[i]⌋`, and
the vertical branch chosen by whether the *cumulative* vertical distance
from row 0 to row `i` (the sum of the first `i` entries of `l`) is `≤ r`;
otherwise `vert = ⌊r/l[1]⌋ + 1` and `added_vert = i - vert + 1`.  Spec-side
comparator for the refinement check of C8. -/
def calc_vert_hor_cumulative (i : ℕ) (r : ℚ) (l d : List ℚ) : Option VHVA := do
  let di ← d.get? i
  if di = 0 then none else
  let hor : ℤ := Rat.floor (r / di)
  if ((l.take i).sum : ℚ) ≤ r then
    pure ⟨(i : ℤ) + 1, hor, 0⟩
  else
    let l1 ← l.get? 1
    if l1 = 0 then none else
    let vert : ℤ := Rat.floor (r / l1) + 1
    pure ⟨vert, hor, (i : ℤ) - vert + 1⟩

/-- **C8** counterexample: with non-uniform vertical spacing `l = [10, 1]`,
row `i = 2` and radius `r = 5`, the cumulative vertical distance is
`10 + 1 = 11 > 5`, so the claimed rule yields `vert = ⌊5/1⌋+1 = 6`; but the
code tests `i·l[1] = 2 ≤ 5` and yields `vert = i+1 = 3`, `added_vert = 0`.
The claim's description of the vertical branch is false of the code. -/
theorem C8_counterexample :
    calc_vert_hor 2 5 [10, 1] [1, 1, 1] = some ⟨3, 5, 0⟩ ∧
    calc_vert_hor_cumulative 2 5 [10, 1] [1, 1, 1] = some ⟨6, 5, -3⟩ ∧
    (10 + 1 : ℚ) > 5 ∧ (2 : ℚ) * 1 ≤ 5 ∧
    calc_vert_hor 2 5 [10, 1] [1, 1, 1] ≠ calc_vert_hor_cumulative 2 5 [10, 1] [1, 1, 1] := by
  refine ⟨of_decide_eq_true (by with_unfolding_all rfl),
    of_decide_eq_true (by with_unfolding_all rfl), by norm_num, by norm_num,
    of_decide_eq_false (by with_unfolding_all rfl)⟩

/-- **C8** (amended): `calc_vert_hor` returns `hor = ⌊r / d[i]⌋`; and if
`i·l[1] ≤ r` — the code's uniform-spacing approximation of the cumulative
vertical distance — it returns `vert = i+1` with `added_vert = 0`, otherwise
`vert = ⌊r / l[1]⌋ + 1` with `added_vert = i - vert + 1`. -/
theorem C8_vert_hor_formula (i : ℕ) (r : ℚ) (l d : List ℚ) (di l1 : ℚ)
    (hd : d.get? i = some di) (hdi : di ≠ 0)
    (hl : l.get? 1 = some l1) (hl1 : l1 ≠ 0) :
    calc_vert_hor i r l d =
      some (if (i : ℚ) * l1 ≤ r then ⟨(i : ℤ) + 1, ⌊r / di⌋, 0⟩
            else ⟨⌊r / l1⌋ + 1, ⌊r / di⌋, (i : ℤ) - (⌊r / l1⌋ + 1) + 1⟩) := by
  simp only [← ratFloor_eq_floor]
  rw [calc_vert_hor, hd]
  simp only [Option.bind_eq_bind, Option.some_bind]
  rw [if_neg hdi, hl]
  simp only [Option.some_bind]
  by_cases hc : (i : ℚ) * l1 ≤ r
  · rw [if_pos hc, if_pos hc]; rfl
  · rw [if_neg hc, if_neg hc, if_neg hl1]; rfl

/-- Witness for C8's amended formula at a concrete input (both branches of
the formula are exercised across `r = 5` here and the counterexample's
data). -/
theorem C8_vert_hor_formula_witness :
    ([10, 1].get? 1 = some (1 : ℚ)) ∧ ((1 : ℚ) ≠ 0) ∧
    calc_vert_hor 2 5 [10, 1] [1, 1, 1] =
      some (if (2 : ℚ) * 1 ≤ 5 then ⟨(2 : ℤ) + 1, ⌊(5 : ℚ) / 1⌋, 0⟩
            else ⟨⌊(5 : ℚ) / 1⌋ + 1, ⌊(5 : ℚ) / 1⌋, (2 : ℤ) - (⌊(5 : ℚ) / 1⌋ + 1) + 1⟩) :=
  ⟨by decide, by decide,
    C8_vert_hor_formula 2 5 [10, 1] [1, 1, 1] 1 1 (by decide) (by decide) (by decide) (by decide)⟩

/-! ### C9 -/

/-- **C9** counterexample: `main` does not validate its inputs.  With the
malformed non-positive radius `r = 0`, `main` neither raises before the
loop nor inside it: the full traversal runs to completion and returns a
normal result (every cell falls into the unconditioned branch, so the
epsilon vector equals the raw random vector). -/
theorem C9_counterexample :
    ((0 : ℚ) ≤ 0) ∧
    (main extId v33 0 rand9).isSome = true ∧
    (mainState extId v33 0 rand9).map SimState.X = some rand9 := by
  refine ⟨le_refl 0, of_decide_eq_true (by with_unfolding_all rfl),
    of_decide_eq_true (by with_unfolding_all rfl)⟩

/-- **C9** (amended): `main` performs no input validation: there is a
non-positive radius on which it runs the whole simulation loop and returns
normally instead of raising a descriptive input-validation error. -/
theorem C9_no_validation :
    ∃ r : ℚ, r ≤ 0 ∧ (main extId v33 r rand9).isSome = true :=
  ⟨0, le_refl 0, of_decide_eq_true (by with_unfolding_all rfl)⟩

/-! ### C5 -/

/-- **C5** counterexample: `calculate_corr` applies no floor before the
square root.  With a correlation model returning `[[1,2],[2,1]]` (and
`pinv` the identity on the 1×1 block), the Schur complement is
`1 - 2·1·2 = -3 < 0`, and the returned `R` is `sqrt` applied to `-3`
itself — not to `max 0 (-3) = 0` — so `R` is not a non-negative value
(`np.sqrt` of a negative argument is NaN in the code). -/
theorem C5_counterexample :
    schurOf extC5 [[0, 1], [1, 0]] = some (-3) ∧
    (calculate_corr extC5 [[0, 1], [1, 0]]).map CorrOut.R = some (-3) ∧
    extC5.sqrt (max 0 (-3 : ℚ)) = 0 ∧
    ¬ (0 : ℚ) ≤ (-3 : ℚ) := by
  refine ⟨of_decide_eq_true (by with_unfolding_all rfl),
    of_decide_eq_true (by with_unfolding_all rfl),
    of_decide_eq_true (by with_unfolding_all rfl), by decide⟩

/-- **C5** (amended): `calculate_corr` returns
`R = sqrt(Sig22 − Sig12ᵀ·Sig11inv·Sig12)` with the raw Schur complement
passed to `sqrt` unfloored, for every correlation model, pseudo-inverse and
input matrix. -/
theorem C5_no_floor (ext : Ext) (m : Mat) :
    (calculate_corr ext m).map CorrOut.R = (schurOf ext m).map ext.sqrt := by
  rw [calculate_corr, schurOf]
  cases h1 : optMapM (fun (row : List ℚ) => row.getLast?) (ext.corr m).dropLast with
  | none => simp
  | some Sig12 =>
    simp only [Option.bind_eq_bind, Option.some_bind]
    cases h2 : (ext.corr m).getLast? with
    | none => simp
    | some lastRow =>
      simp only [Option.some_bind]
      cases h3 : lastRow.getLast? with
      | none => simp
      | some Sig22 =>
        simp only [Option.some_bind]
        cases h4 : rowTimesMat Sig12 (ext.pinv ((ext.corr m).dropLast.map (fun row => row.dropLast))) with
        | none => simp
        | some w =>
          simp only [Option.some_bind]
          cases h5 : dotQ w Sig12 with
          | none => simp
          | some t => simp

/-! ### C3 and C4 -/

/-- **C3** (confirmed): at a cell whose conditioning set is empty — the
window selection contains only the cell itself (`np.size(inc_indices) == 1`)
and no stations lie within the radius — the per-cell step of `main` skips
the covariance solve: the output epsilon is set to the raw draw `rand[num]`
exactly, the stored weight vector and conditioning-index list are empty,
the stored standard deviation is `1`, and the row cache is untouched. -/
theorem C3_unconditioned_cell (ext : Ext) (v : Var) (r : ℚ) (rand : List ℚ)
    (vhva : VHVA) (dist : FD) (i j : ℕ) (st : SimState) (base : Option CorrOut)
    (st2 : SimState) (base2 : Option CorrOut) (out : IS) (rv : ℚ)
    (hout : cellStations ext v r i j st.X (cellReduce v vhva dist j) = some out)
    (hsel : (cellReduce v vhva dist j).inc_indices.length = 1)
    (hsta : out.inc_sta_indices = [])
    (hrand : rand.get? (i * v.N + j) = some rv)
    (hstep : cellStep ext v r rand vhva dist i j st base = some (st2, base2)) :
    st2.X = st.X.set (i * v.N + j) rv ∧
    st2.grid_arr = st.grid_arr.set (i * v.N + j) [] ∧
    st2.mu_arr = st.mu_arr.set (i * v.N + j) [] ∧
    st2.sigma_arr = st.sigma_arr.set (i * v.N + j) 1 ∧
    st2.rand_arr = st.rand_arr.set (i * v.N + j) rv ∧
    base2 = base := by
  rw [cellStep] at hstep
  rw [hout] at hstep
  simp only [Option.bind_eq_bind, Option.some_bind] at hstep
  rw [if_pos hsel, hrand] at hstep
  simp only [Option.some_bind, Option.some_inj, Prod.mk.injEq] at hstep
  rcases hstep with ⟨rfl, rfl⟩
  exact ⟨rfl, rfl, rfl, rfl, rfl, rfl⟩

/-- Witness for C3 at the first cell `(0,0)` of the station-free `v33` run
(radius `3/2`, so the selection is the cell itself only). -/
theorem C3_unconditioned_cell_witness :
    (cellStations extId v33 (3/2) 0 0 (initState 9).X
        (cellReduce v33 ⟨1, 1, 0⟩ ⟨[0, 1], [[0, 1], [1, 0]]⟩ 0) =
      some ⟨[[0]], [], []⟩) ∧
    ((cellReduce v33 ⟨1, 1, 0⟩ ⟨[0, 1], [[0, 1], [1, 0]]⟩ 0).inc_indices.length = 1) ∧
    (rand9.get? 0 = some (1/10)) ∧
    (cellStep extId v33 (3/2) rand9 ⟨1, 1, 0⟩ ⟨[0, 1], [[0, 1], [1, 0]]⟩ 0 0
        (initState 9) none =
      some (⟨(initState 9).X.set 0 (1/10), (initState 9).grid_arr.set 0 [],
             (initState 9).mu_arr.set 0 [], (initState 9).sigma_arr.set 0 1,
             (initState 9).rand_arr.set 0 (1/10)⟩, none)) ∧
    ((⟨(initState 9).X.set 0 (1/10), (initState 9).grid_arr.set 0 [],
       (initState 9).mu_arr.set 0 [], (initState 9).sigma_arr.set 0 1,
       (initState 9).rand_arr.set 0 (1/10)⟩ : SimState).X =
      (initState 9).X.set 0 (1/10)) :=
  ⟨of_decide_eq_true (by with_unfolding_all rfl),
   of_decide_eq_true (by with_unfolding_all rfl),
   of_decide_eq_true (by with_unfolding_all rfl),
   of_decide_eq_true (by with_unfolding_all rfl),
   (C3_unconditioned_cell extId v33 (3/2) rand9 ⟨1, 1, 0⟩ ⟨[0, 1], [[0, 1], [1, 0]]⟩
      0 0 (initState 9) none _ none ⟨[[0]], [], []⟩ (1/10)
      (of_decide_eq_true (by with_unfolding_all rfl))
      (of_decide_eq_true (by with_unfolding_all rfl))
      rfl
      (of_decide_eq_true (by with_unfolding_all rfl))
      (of_decide_eq_true (by with_unfolding_all rfl))).1⟩

/-- **C4** counterexample: in the `v33sta0` run one station lies within the
radius of cell `(0,0)` (`inc_sta_indices = [0]` there), the cell has no
previously simulated grid cells in its window (selection of size 1), and
yet `main` treats the cell as unconditioned: its epsilon is the raw draw
`rand[0]`, the stored weight vector is empty and the stored standard
deviation is 1 — not the claimed conditional mean plus `rand·R` using the
station entries. -/
theorem C4_counterexample :
    (cellStations extId v33sta0 (3/2) 0 0 (initState 9).X
        (cellReduce v33sta0 ⟨1, 1, 0⟩ ⟨[0, 1], [[0, 1], [1, 0]]⟩ 0)).map
      IS.inc_sta_indices = some [0] ∧
    (cellReduce v33sta0 ⟨1, 1, 0⟩ ⟨[0, 1], [[0, 1], [1, 0]]⟩ 0).inc_indices.length = 1 ∧
    (mainState extId v33sta0 (3/2) rand9).map
        (fun s => (s.X.getD 0 9, s.mu_arr.getD 0 [9], s.sigma_arr.getD 0 9, s.grid_arr.getD 0 [9])) =
      some (1/10, [], 1, []) ∧
    rand9.get? 0 = some (1/10) ∧
    ([] : List ℚ) ≠ [9] :=
  ⟨of_decide_eq_true (by with_unfolding_all rfl),
   of_decide_eq_true (by with_unfolding_all rfl),
   of_decide_eq_true (by with_unfolding_all rfl),
   of_decide_eq_true (by with_unfolding_all rfl),
   by decide⟩

/-- **C4** (amended): the unconditioned branch of `main` tests only the
grid-window selection size (`np.size(inc_indices) == 1`) and ignores the
stations: a cell with no previously simulated grid cells in its window is
assigned the raw random draw (empty weight vector, std 1) even when one or
more stations lie within radius `r` of it.  Stations enter the conditioning
only for cells whose window selection has at least two indices. -/
theorem C4_stations_ignored_when_self_only (ext : Ext) (v : Var) (r : ℚ)
    (rand : List ℚ) (vhva : VHVA) (dist : FD) (i j : ℕ) (st : SimState)
    (base : Option CorrOut) (st2 : SimState) (base2 : Option CorrOut)
    (out : IS) (rv : ℚ)
    (hout : cellStations ext v r i j st.X (cellReduce v vhva dist j) = some out)
    (hsel : (cellReduce v vhva dist j).inc_indices.length = 1)
    (hsta : out.inc_sta_indices ≠ [])
    (hrand : rand.get? (i * v.N + j) = some rv)
    (hstep : cellStep ext v r rand vhva dist i j st base = some (st2, base2)) :
    st2.X = st.X.set (i * v.N + j) rv ∧
    st2.grid_arr = st.grid_arr.set (i * v.N + j) [] ∧
    st2.mu_arr = st.mu_arr.set (i * v.N + j) [] ∧
    st2.sigma_arr = st.sigma_arr.set (i * v.N + j) 1 ∧
    st2.rand_arr = st.rand_arr.set (i * v.N + j) rv ∧
    base2 = base := by
  rw [cellStep] at hstep
  rw [hout] at hstep
  simp only [Option.bind_eq_bind, Option.some_bind] at hstep
  rw [if_pos hsel, hrand] at hstep
  simp only [Option.some_bind, Option.some_inj, Prod.mk.injEq] at hstep
  rcases hstep with ⟨rfl, rfl⟩
  exact ⟨rfl, rfl, rfl, rfl, rfl, rfl⟩

/-- Witness for C4's amended statement at cell `(0,0)` of the `v33sta0` run
(one station within radius, selection of size 1). -/
theorem C4_stations_ignored_witness :
    (cellStations extId v33sta0 (3/2) 0 0 (initState 9).X
        (cellReduce v33sta0 ⟨1, 1, 0⟩ ⟨[0, 1], [[0, 1], [1, 0]]⟩ 0) =
      some ⟨[[0, 1], [1, 0]], [0], [0]⟩) ∧
    (([0] : List ℕ) ≠ []) ∧
    ((⟨(initState 9).X.set 0 (1/10), (initState 9).grid_arr.set 0 [],
       (initState 9).mu_arr.set 0 [], (initState 9).sigma_arr.set 0 1,
       (initState 9).rand_arr.set 0 (1/10)⟩ : SimState).mu_arr =
      (initState 9).mu_arr.set 0 []) :=
  ⟨of_decide_eq_true (by with_unfolding_all rfl), by decide,
   (C4_stations_ignored_when_self_only extId v33sta0 (3/2) rand9 ⟨1, 1, 0⟩
      ⟨[0, 1], [[0, 1], [1, 0]]⟩ 0 0 (initState 9) none _ none
      ⟨[[0, 1], [1, 0]], [0], [0]⟩ (1/10)
      (of_decide_eq_true (by with_unfolding_all rfl))
      (of_decide_eq_true (by with_unfolding_all rfl))
      (by decide)
      rfl
      (of_decide_eq_true (by with_unfolding_all rfl))).2.2.1⟩

/-! ### C7 -/

/-- Every entry of `inc_ind` except the final self entry comes either from a
prior-row block (`k ≤ vert-2`, column range `[loP, hiP)`) or from the
current-row block with the last column dropped (column range `[loC, hiC-1)`). -/
theorem reducedInd_dropLast_mem (vert av : ℤ) (N : ℕ) (loC hiC loP hiP : ℤ)
    (hv : 1 ≤ vert) (hC : loC < hiC) {e : ℤ}
    (he : e ∈ (reducedInd vert av N loC hiC loP hiP).dropLast) :
    (∃ k eta, 0 ≤ k ∧ k ≤ vert - 2 ∧ loP ≤ eta ∧ eta < hiP ∧
       e = eta + (N : ℤ) * k + (N : ℤ) * av) ∨
    (∃ eta, loC ≤ eta ∧ eta < hiC - 1 ∧
       e = eta + (N : ℤ) * (vert - 1) + (N : ℤ) * av) := by
  rw [reducedInd, intRange_succ_right (by omega : (0 : ℤ) < vert),
    List.flatMap_append] at he
  simp only [List.flatMap_cons, List.flatMap_nil, List.append_nil, if_pos rfl,
    if_true] at he
  have hne : (intRange loC hiC).map
      (fun eta => eta + (N : ℤ) * (vert - 1) + (N : ℤ) * av) ≠ [] := by
    intro hnil
    have := congrArg List.length hnil
    rw [List.length_map, intRange_length] at this
    simp at this
    omega
  rw [List.dropLast_append_of_ne_nil _ hne] at he
  rcases List.mem_append.mp he with hp | hc
  · left
    rcases List.mem_flatMap.mp hp with ⟨k, hk, hek⟩
    have hkb := mem_intRange.mp hk
    rw [if_neg (by omega : ¬ k = vert - 1)] at hek
    rcases List.mem_map.mp hek with ⟨eta, heta, rfl⟩
    have := mem_intRange.mp heta
    exact ⟨k, eta, by omega, by omega, this.1, this.2, rfl⟩
  · right
    rw [← List.map_dropLast, intRange_dropLast] at hc
    rcases List.mem_map.mp hc with ⟨eta, heta, rfl⟩
    have := mem_intRange.mp heta
    exact ⟨eta, this.1, by omega, rfl⟩

/-- Bound for a prior-row entry `eta + N·k + N·av` of the conditioning
list: non-negative and below the cell's linear index. -/
theorem priorEntry_bound (i j N : ℕ) (vert av k eta : ℤ)
    (hk0 : 0 ≤ k) (hk2 : k ≤ vert - 2) (hv2 : vert ≤ (i : ℤ) + 1)
    (hav : av = (i : ℤ) - vert + 1)
    (heta0 : 0 ≤ eta) (hetaU : eta ≤ (N : ℤ) + j - 1) (hj : j < N) :
    0 ≤ eta + (N : ℤ) * k + (N : ℤ) * av ∧
    eta + (N : ℤ) * k + (N : ℤ) * av < (i : ℤ) * N + j := by
  have hkav1 : 0 ≤ k + av := by omega
  have hkav2 : k + av ≤ (i : ℤ) - 1 := by omega
  have hsum : (N : ℤ) * k + (N : ℤ) * av = (N : ℤ) * (k + av) := by ring
  have hup : (N : ℤ) * (k + av) ≤ (N : ℤ) * ((i : ℤ) - 1) :=
    mul_le_mul_of_nonneg_left hkav2 (by positivity)
  have hlow : 0 ≤ (N : ℤ) * (k + av) := mul_nonneg (by positivity) hkav1
  have hexp : (N : ℤ) * ((i : ℤ) - 1) = (N : ℤ) * i - N := by ring
  have hcomm : (i : ℤ) * N = (N : ℤ) * i := by ring
  have hjN : (j : ℤ) < N := by exact_mod_cast hj
  omega

/-- Bound for a current-row entry `eta + N·(vert-1) + N·av` (one of the
entries before the final self entry): non-negative and below the cell's
linear index. -/
theorem currentEntry_bound (i j N : ℕ) (vert av eta : ℤ)
    (hv1 : 1 ≤ vert) (hv2 : vert ≤ (i : ℤ) + 1) (hav : av = (i : ℤ) - vert + 1)
    (heta0 : 0 ≤ eta) (hetaU : eta < j) :
    0 ≤ eta + (N : ℤ) * (vert - 1) + (N : ℤ) * av ∧
    eta + (N : ℤ) * (vert - 1) + (N : ℤ) * av < (i : ℤ) * N + j := by
  have hcur : (N : ℤ) * (vert - 1) + (N : ℤ) * av = (N : ℤ) * i := by rw [hav]; ring
  have hlow : 0 ≤ (N : ℤ) * i := by positivity
  have hcomm : (i : ℤ) * N = (N : ℤ) * i := by ring
  omega

/-- **C7** (amended): provided the full window width fits inside one row
(`2·hor + 1 ≤ N`, with `hor ≥ 0`) and the vertical extent is causal
(`1 ≤ vert ≤ i+1`, `added_vert = i - vert + 1`, as `calc_vert_hor`
guarantees), every grid index in the conditioning list of cell `(i,j)` —
`inc_ind` without its final self entry, which `main` stores as
`grid_arr[i*N+j]` — is non-negative, strictly less than the linear index
`i*N + j`, and less than `M*N`. -/
theorem C7_causality_bounded (i j N M : ℕ) (vert hor av : ℤ) (dm : Mat)
    (gi : List ℤ)
    (hv1 : 1 ≤ vert) (hv2 : vert ≤ (i : ℤ) + 1) (hav : av = (i : ℤ) - vert + 1)
    (hhor : 0 ≤ hor) (hN : 2 * hor + 1 ≤ (N : ℤ)) (hj : j < N) (hi : i < M) :
    ∀ e ∈ (reduce_distance j vert hor av N dm gi).inc_ind.dropLast,
      0 ≤ e ∧ e < (i : ℤ) * N + j ∧ e < (M : ℤ) * N := by
  intro e he
  have hMN : (i : ℤ) * N + j < (M : ℤ) * N := by
    have h1 : ((i : ℤ) + 1) * N ≤ (M : ℤ) * N :=
      mul_le_mul_of_nonneg_right (by exact_mod_cast hi) (by positivity)
    have h2 : (j : ℤ) < N := by exact_mod_cast hj
    nlinarith
  have hstep : 0 ≤ e ∧ e < (i : ℤ) * N + j →
      0 ≤ e ∧ e < (i : ℤ) * N + j ∧ e < (M : ℤ) * N :=
    fun h => ⟨h.1, h.2, lt_trans h.2 hMN⟩
  apply hstep
  rw [reduce_distance] at he
  have hjN : (j : ℤ) < N := by exact_mod_cast hj
  by_cases hb1 : (j : ℤ) < hor
  · rw [if_pos hb1] at he
    rcases reducedInd_dropLast_mem vert av N 0 ((j : ℤ) + 1) 0 ((j : ℤ) + hor + 1)
      hv1 (by omega) he with ⟨k, eta, hk0, hk2, he1, he2, rfl⟩ | ⟨eta, he1, he2, rfl⟩
    · exact priorEntry_bound i j N vert av k eta hk0 hk2 hv2 hav (by omega) (by omega) hj
    · exact currentEntry_bound i j N vert av eta hv1 hv2 hav (by omega) (by omega)
  · rw [if_neg hb1] at he
    by_cases hb2 : (j : ℤ) > (N : ℤ) - hor - 1
    · rw [if_pos hb2] at he
      rcases reducedInd_dropLast_mem vert av N ((j : ℤ) - hor) ((j : ℤ) + 1)
        ((j : ℤ) - hor) (N : ℤ) hv1 (by omega) he with
        ⟨k, eta, hk0, hk2, he1, he2, rfl⟩ | ⟨eta, he1, he2, rfl⟩
      · exact priorEntry_bound i j N vert av k eta hk0 hk2 hv2 hav (by omega) (by omega) hj
      · exact currentEntry_bound i j N vert av eta hv1 hv2 hav (by omega) (by omega)
    · rw [if_neg hb2] at he
      rcases reducedInd_dropLast_mem vert av N ((j : ℤ) - hor) ((j : ℤ) + 1)
        ((j : ℤ) - hor) ((j : ℤ) + hor + 1) hv1 (by omega) he with
        ⟨k, eta, hk0, hk2, he1, he2, rfl⟩ | ⟨eta, he1, he2, rfl⟩
      · exact priorEntry_bound i j N vert av k eta hk0 hk2 hv2 hav (by omega) (by omega) hj
      · exact currentEntry_bound i j N vert av eta hv1 hv2 hav (by omega) (by omega)

/-- Witness for C7's amended causality bound: cell `(1,1)` of the 3×3 grid
with `vert = 2`, `hor = 1` (as in the `v33` run) — the conditioning list
is `[0,1,2,3]`, all entries below `num = 4` and inside the grid. -/
theorem C7_causality_bounded_witness :
    ((1 : ℤ) ≤ 2 ∧ (2 : ℤ) ≤ (1 : ℕ) + 1 ∧ (0 : ℤ) = (1 : ℕ) - 2 + 1 ∧
      (0 : ℤ) ≤ 1 ∧ 2 * 1 + 1 ≤ ((3 : ℕ) : ℤ) ∧ (1 : ℕ) < 3 ∧ (1 : ℕ) < 3) ∧
    (∀ e ∈ (reduce_distance 1 2 1 0 3 [[0]] [0]).inc_ind.dropLast,
      0 ≤ e ∧ e < ((1 : ℕ) : ℤ) * 3 + 1 ∧ e < ((3 : ℕ) : ℤ) * 3) :=
  ⟨⟨by decide, by decide, by decide, by decide, by decide, by decide, by decide⟩,
   C7_causality_bounded 1 1 3 3 2 1 0 [[0]] [0] (by decide) (by decide)
     (by decide) (by decide) (by decide) (by decide) (by decide)⟩

/-- **C7** counterexample: in the `v32` run (radius 2, row spacing 1, so
`hor = 2 ≥ N = 2`) the run completes, and the conditioning list stored for
cell `(1,0)` — linear index `num = 2` — is `[0, 1, 2]`: it contains the
cell's own index `2`, which is not strictly less than `num`, so the claim's
universal causality bound is false of the code. -/
theorem C7_counterexample :
    (mainState extId v32 2 rand6).isSome = true ∧
    (mainState extId v32 2 rand6).map (fun s => s.grid_arr.getD 2 []) =
      some [0, 1, 2] ∧
    (2 : ℤ) ∈ ([0, 1, 2] : List ℤ) ∧
    ¬ ((2 : ℤ) < (1 : ℤ) * 2 + 0) :=
  ⟨of_decide_eq_true (by with_unfolding_all rfl),
   of_decide_eq_true (by with_unfolding_all rfl),
   by decide, by decide⟩

/-! ### C1 -/

theorem getD_set_self {α : Type} (l : List α) (n : ℕ) (a d : α) (h : n < l.length) :
    (l.set n a).getD n d = a := by
  rw [List.getD_eq_getElem?_getD, List.getElem?_set_self]
  · rfl
  · simpa using h

/-- Writing position `n` does not disturb `npGet` reads strictly below `n`. -/
theorem npGet_set_lt {α : Type} (l : List α) (n : ℕ) (a : α) (e : ℤ)
    (h0 : 0 ≤ e) (hlt : e < (n : ℤ)) :
    npGet (l.set n a) e = npGet l e := by
  rw [npGet, npGet, if_pos h0, if_pos h0]
  simp only [List.get?_eq_getElem?]
  exact List.getElem?_set_ne (by omega)

theorem optMapM_congr {α β : Type} {f g : α → Option β} :
    ∀ {l : List α}, (∀ a ∈ l, f a = g a) → optMapM f l = optMapM g l := by
  intro l
  induction l with
  | nil => intro _; rfl
  | cons a t ih =>
    intro h
    rw [optMapM, optMapM, h a (by simp), ih (fun b hb => h b (by simp [hb]))]

theorem optMapM_dropLast {α β : Type} {f : α → Option β} :
    ∀ {l : List α} {xs : List β}, optMapM f l = some xs →
      optMapM f l.dropLast = some xs.dropLast := by
  intro l
  induction l with
  | nil => intro xs h; simp only [optMapM, Option.some_inj] at h; simp [← h, optMapM]
  | cons a t ih =>
    intro xs h
    rw [optMapM] at h
    rcases hb : f a with _ | b <;> rw [hb] at h
    · simp at h
    · rcases hr : optMapM f t with _ | r <;> rw [hr] at h
      · simp at h
      · simp only [Option.some_bind, Option.some_inj] at h
        subst h
        cases t with
        | nil =>
          simp only [optMapM, Option.some_inj] at hr
          simp [← hr, optMapM]
        | cons a2 t2 =>
          have hrne : r ≠ [] := by
            intro hnil
            have := optMapM_length hr
            rw [hnil] at this
            simp at this
          rw [List.dropLast_cons_of_ne_nil (by simp), optMapM, hb,
            ih hr]
          simp [List.dropLast_cons_of_ne_nil hrne]

/-- Inversion of `inc_stations` when no stations fall within the radius:
the distance matrix is returned unmodified and the known-value vector is
`X[inc_ind]` with its final (self) entry dropped. -/
theorem inc_stations_empty_sta (ext : Ext) (j i N K : ℕ) (r : ℚ)
    (lonsSM latsSM lonsSta latsSta : List ℚ) (dist_mat : Mat) (X : List ℚ)
    (inc_ind : List ℤ) (out : IS)
    (hout : inc_stations ext j i N K r lonsSM latsSM lonsSta latsSta
      dist_mat X inc_ind = some out)
    (hsta : out.inc_sta_indices = []) :
    out.dist_mat = dist_mat ∧
    ∃ xs, optMapM (fun t => npGet X t) inc_ind = some xs ∧ out.x = xs.dropLast := by
  rw [inc_stations] at hout
  simp only [Option.pure_def, Option.bind_eq_bind, Option.bind_eq_some] at hout
  rcases hout with ⟨lo, hlo, la, hla, hout⟩
  split at hout
  case isTrue hC =>
    -- stations found: contradicts `hsta`
    exfalso
    simp only [Option.bind_eq_some, Option.some_inj] at hout
    rcases hout with ⟨staPts, _, gridPts, _, sdm, _, dm1, _, dm2, _, xs, _, hout⟩
    rw [← hout] at hsta
    exact hC hsta
  case isFalse hC =>
    simp only [Option.bind_eq_some, Option.some_inj] at hout
    rcases hout with ⟨xs, hxs, hout⟩
    rw [← hout]
    exact ⟨rfl, xs, hxs, rfl⟩

/-- **C1** (amended): at every cell into whose conditioning no station was
merged, the per-cell step of `main` establishes the resampling identity of
the claim: immediately after the assignment,
`X[num] = mu_arr[num] · X[grid_arr[num]] + rand_arr[num] · sigma_arr[num]`
(with `num = i*N + j`, the values `X[grid_arr[num]]` read back from the
updated state, and `rand_arr[num]` the draw used).  The causality
hypothesis (entries of the conditioning list lie strictly below `num`) is
what lets the reads be taken from the updated state; it is discharged by
`C7`'s bound in sane configurations.  For cells **with** stations the
identity fails — see the counterexample — because `mu_arr[num]` keeps the
station weights while `grid_arr[num]` records only the grid indices. -/
theorem C1_step_round_trip (ext : Ext) (v : Var) (r : ℚ) (rand : List ℚ)
    (vhva : VHVA) (dist : FD) (i j : ℕ) (st : SimState) (base : Option CorrOut)
    (st2 : SimState) (base2 : Option CorrOut) (out : IS)
    (hout : cellStations ext v r i j st.X (cellReduce v vhva dist j) = some out)
    (hsta : out.inc_sta_indices = [])
    (hcaus : ∀ e ∈ (cellReduce v vhva dist j).inc_ind.dropLast,
      0 ≤ e ∧ e < ((i * v.N + j : ℕ) : ℤ))
    (hlen : i * v.N + j < st.X.length ∧ i * v.N + j < st.grid_arr.length ∧
      i * v.N + j < st.mu_arr.length ∧ i * v.N + j < st.sigma_arr.length ∧
      i * v.N + j < st.rand_arr.length)
    (hstep : cellStep ext v r rand vhva dist i j st base = some (st2, base2)) :
    ∃ rv, rand.get? (i * v.N + j) = some rv ∧
      st2.rand_arr.getD (i * v.N + j) 0 = rv ∧
      ∃ vals, optMapM (fun t => npGet st2.X t)
          (st2.grid_arr.getD (i * v.N + j) []) = some vals ∧
      ∃ mu, dotQ (st2.mu_arr.getD (i * v.N + j) []) vals = some mu ∧
        st2.X.getD (i * v.N + j) 0 = mu + rv * st2.sigma_arr.getD (i * v.N + j) 0 := by
  obtain ⟨hlX, hlG, hlM, hlS, hlR⟩ := hlen
  rw [cellStations] at hout
  obtain ⟨hdm, xs, hxs, hx⟩ := inc_stations_empty_sta ext j i v.N v.K r
    v.lonsSM v.latsSM v.lonsSta v.latsSta
    (cellReduce v vhva dist j).dist_mat st.X (cellReduce v vhva dist j).inc_ind
    out hout hsta
  have hstable : ∀ xv : ℚ,
      optMapM (fun t => npGet (st.X.set (i * v.N + j) xv) t)
          (cellReduce v vhva dist j).inc_ind.dropLast =
        some xs.dropLast := by
    intro xv
    rw [optMapM_congr (fun e hme => npGet_set_lt st.X (i * v.N + j) xv e
      (hcaus e hme).1 (hcaus e hme).2)]
    exact optMapM_dropLast hxs
  have key : ∀ (b : CorrOut) (rv xv : ℚ) (w : List ℚ),
      rand.get? (i * v.N + j) = some rv →
      epsValue b out.x rv = some xv →
      rowTimesMat b.Sig12 b.Sig11inv = some w →
      ∃ rv2, rand.get? (i * v.N + j) = some rv2 ∧
        (SimState.mk (st.X.set (i * v.N + j) xv)
          (st.grid_arr.set (i * v.N + j) (cellReduce v vhva dist j).inc_ind.dropLast)
          (st.mu_arr.set (i * v.N + j) w)
          (st.sigma_arr.set (i * v.N + j) b.R)
          (st.rand_arr.set (i * v.N + j) rv)).rand_arr.getD (i * v.N + j) 0 = rv2 ∧
        ∃ vals, optMapM (fun t => npGet (st.X.set (i * v.N + j) xv) t)
            ((st.grid_arr.set (i * v.N + j)
              (cellReduce v vhva dist j).inc_ind.dropLast).getD (i * v.N + j) []) =
          some vals ∧
        ∃ mu, dotQ ((st.mu_arr.set (i * v.N + j) w).getD (i * v.N + j) []) vals = some mu ∧
          (st.X.set (i * v.N + j) xv).getD (i * v.N + j) 0 =
            mu + rv2 * (st.sigma_arr.set (i * v.N + j) b.R).getD (i * v.N + j) 0 := by
    intro b rv xv w hrv hxv hw
    rw [epsValue] at hxv
    rw [hw] at hxv
    simp only [Option.pure_def, Option.bind_eq_bind, Option.bind_eq_some,
      Option.some_bind, Option.some_inj] at hxv
    rcases hxv with ⟨mu, hmu, hxveq⟩
    refine ⟨rv, hrv, by rw [getD_set_self _ _ _ _ hlR], ?_⟩
    rw [getD_set_self _ _ _ _ hlG]
    refine ⟨xs.dropLast, hstable xv, ?_⟩
    rw [getD_set_self _ _ _ _ hlM, getD_set_self _ _ _ _ hlS,
      getD_set_self _ _ _ _ hlX]
    refine ⟨mu, ?_, by rw [← hxveq]⟩
    rw [← hx]
    exact hmu
  rw [cellStep] at hstep
  rw [cellStations] at hstep
  rw [hout] at hstep
  simp only [Option.bind_eq_bind, Option.some_bind] at hstep
  by_cases hsel : (cellReduce v vhva dist j).inc_indices.length = 1
  · rw [if_pos hsel] at hstep
    simp only [Option.pure_def, Option.bind_eq_bind, Option.bind_eq_some,
      Option.some_inj, Prod.mk.injEq] at hstep
    rcases hstep with ⟨rv, hrv, hrec, hb2⟩
    rw [← hrec]
    refine ⟨rv, hrv, by rw [getD_set_self _ _ _ _ hlR], ?_⟩
    rw [getD_set_self _ _ _ _ hlG]
    refine ⟨[], rfl, ?_⟩
    rw [getD_set_self _ _ _ _ hlM]
    refine ⟨0, rfl, ?_⟩
    rw [getD_set_self _ _ _ _ hlX, getD_set_self _ _ _ _ hlS]
    ring
  · rw [if_neg hsel] at hstep
    by_cases hfs : isFullShape vhva.vert vhva.hor (cellReduce v vhva dist j).num_indices
    · rw [if_pos ⟨hfs, hsta⟩] at hstep
      cases base with
      | none =>
        simp only [Option.pure_def, Option.bind_eq_bind, Option.bind_eq_some,
          Option.some_inj, Prod.mk.injEq] at hstep
        rcases hstep with ⟨b, hb, rv, hrv, xv, hxv, w, hw, hrec, hb2⟩
        rw [← hrec]
        exact key b rv xv w hrv hxv hw
      | some b =>
        simp only [Option.pure_def, Option.bind_eq_bind, Option.some_bind,
          Option.bind_eq_some, Option.some_inj, Prod.mk.injEq] at hstep
        rcases hstep with ⟨rv, hrv, xv, hxv, w, hw, hrec, hb2⟩
        rw [← hrec]
        exact key b rv xv w hrv hxv hw
    · rw [if_neg (fun hand => hfs hand.1)] at hstep
      simp only [Option.pure_def, Option.bind_eq_bind, Option.bind_eq_some,
        Option.some_inj, Prod.mk.injEq] at hstep
      rcases hstep with ⟨b, hb, rv, hrv, xv, hxv, w, hw, hrec, hb2⟩
      rw [← hrec]
      exact key b rv xv w hrv hxv hw

end Loop
